import Mathlib

/-!
Shallow embedding of the temporal training/validation core of
`pytorch-CortexNet/main.py`.

Tensors whose first dimension indexes the batch lanes are modelled as
lists of slices (`List (List Int)`); the per-lane boundary-mismatch flag
is a `List Bool`.  A recurrent-state tensor additionally carries the list
of gradient hooks registered on it; each hook produced by
`selective_zero(..., forward=False)` is `lambda g: g.index_fill(0, b, 0)`
and is fully determined by the index list `b`, so hooks are stored as
those index lists.  The black-box model and the loss criteria are
parameters.  Fallible operations (Python exceptions, division by zero)
return `Option`/`Except`.
-/

set_option autoImplicit false

namespace CortexNet

abbrev Slice := List Int
abbrev Tensor := List Slice
abbrev Labels := List Int
abbrev Logits := List (List Rat)

/-- A state tensor together with the gradient hooks registered on it
(each hook zeroes the gradient rows listed in its index list). -/
structure HTensor where
  data : Tensor
  hooks : List (List Nat)
deriving DecidableEq, Inhabited

/-- The recurrent state container of `main.py`: either a flat list of
per-layer tensors (simple convolutional G) or a pair of such lists
(recurrent G, checked by `isinstance(s[0], list)` in the source). -/
inductive StateStore where
  | flat : List HTensor → StateStore
  | pair : List HTensor → List HTensor → StateStore
deriving DecidableEq

/-- Python truthiness of the state object (`if state_:`): `None` and the
empty list are falsy; a pair (a two-element Python list) is truthy. -/
def StateStore.truthy : StateStore → Bool
  | .flat l => !l.isEmpty
  | .pair _ _ => true

def truthyOpt : Option StateStore → Bool
  | none => false
  | some s => s.truthy

/-- All tensors held by a state store (both halves for the pair form). -/
def StateStore.tensors : StateStore → List HTensor
  | .flat l => l
  | .pair s0 s1 => s0 ++ s1

/-- `new.nonzero().squeeze(1)`: the indices of the true entries, with `i`
the index of the first element of the remaining list. -/
def nonzeroIdxAux : Nat → List Bool → List Nat
  | _, [] => []
  | i, b :: rest => if b then i :: nonzeroIdxAux (i + 1) rest else nonzeroIdxAux (i + 1) rest

def nonzeroIdx (new : List Bool) : List Nat := nonzeroIdxAux 0 new

def zeroSlice (l : Slice) : Slice := l.map (fun _ => 0)

/-- `t.index_fill(0, b, 0)`: zero the lane slices at the indices in `b`;
`i` is the index of the head of the remaining list. -/
def indexFillFrom (b : List Nat) : Nat → Tensor → Tensor
  | _, [] => []
  | i, lane :: rest =>
      (if i ∈ b then zeroSlice lane else lane) :: indexFillFrom b (i + 1) rest

def indexFill (t : Tensor) (b : List Nat) : Tensor := indexFillFrom b 0 t

/-- Forward masking of one state tensor: `s[layer] = s[layer].index_fill(0, V(b), 0)`. -/
def maskTensor (b : List Nat) (t : HTensor) : HTensor :=
  { t with data := indexFill t.data b }

/-- Backward masking of one state tensor:
`s[layer].register_hook(lambda g: g.index_fill(0, V(b), 0))`. -/
def hookTensor (b : List Nat) (t : HTensor) : HTensor :=
  { t with hooks := t.hooks ++ [b] }

/-- `selective_zero(s, new, forward)` from `main.py`. -/
def selective_zero (s : StateStore) (new : List Bool) (forward : Bool) : StateStore :=
  if new.any id then
    let b := nonzeroIdx new
    if forward then
      match s with
      | .pair s0 s1 => .pair (s0.map (maskTensor b)) (s1.map (maskTensor b))
      | .flat l => .flat (l.map (maskTensor b))
    else
      match s with
      | .pair s0 s1 => .pair (s0.map (hookTensor b)) (s1.map (hookTensor b))
      | .flat l => .flat (l.map (hookTensor b))
  else s

/-- The gradient that actually reaches a tensor: the incoming gradient
after all registered hooks have rewritten it, in registration order. -/
def applyHooks (t : HTensor) (g : Tensor) : Tensor :=
  t.hooks.foldl (fun h b => indexFill h b) g

/-- Whether some registered hook zeroes the gradient row of lane `i`. -/
def HTensor.blocksLane (t : HTensor) (i : Nat) : Bool :=
  t.hooks.any (fun b => b.contains i)

/-- `selective_match`'s in-place copy `x_hat[bb].copy_(x[bb])` for `bb ∈ b`;
`i` is the index of the head of the remaining list. -/
def copyFrom (x : Tensor) (b : List Nat) : Nat → Tensor → Tensor
  | _, [] => []
  | i, lane :: rest =>
      (if i ∈ b then x.getD i [] else lane) :: copyFrom x b (i + 1) rest

/-- `selective_match(x_hat, x, new)` from `main.py`. -/
def selective_match (x_hat x : Tensor) (new : List Bool) : Tensor :=
  if new.any id then copyFrom x (nonzeroIdx new) 0 x_hat else x_hat

/-- `logits.index_select(0, b)`. -/
def indexSelect {α : Type} (l : List α) (b : List Nat) : List α :=
  b.filterMap (fun i => l.get? i)

/-- `selective_cross_entropy(logits, y, new, loss, count)` from `main.py`,
returning the loss value and the updated `count['ce_count']`. -/
def selective_cross_entropy (logits : Logits) (y : Labels) (new : List Bool)
    (loss : Logits → Labels → Rat) (ce_count : Nat) : Rat × Nat :=
  if new.any id = false then (0, ce_count)
  else
    let b := nonzeroIdx new
    (loss (indexSelect logits b) (indexSelect y b), ce_count + b.length)

/-- `args.mode`: 'MatchNet' or 'TempoNet'. -/
inductive Mode where
  | MatchNet
  | TempoNet
deriving DecidableEq

/-- The loss criteria `(mse, nll_final, nll_periodic)` handed to `train`
and `validate`; black boxes returning rational loss values. -/
structure LossCfg where
  mse : Tensor → Tensor → Rat
  nll_final : Logits → Labels → Rat
  nll_periodic : Logits → Labels → Rat

/-- The black-box model: frame and (possibly absent) state in,
`(x_hat, state), (_, idx)` out. -/
abbrev ModelFun := Tensor → Option StateStore → Tensor × StateStore × Logits

/-- `y[t+1] != y[t]` computed lane-wise on label rows. -/
def labelMismatch (a b : Labels) : List Bool :=
  List.zipWith (fun p q => decide (p ≠ q)) a b

/-- `mismatch + previous_mismatch` on 0/1 byte masks: an entry is nonzero
iff either operand's entry is. -/
def resetLanes (mismatch previous_mismatch : List Bool) : List Bool :=
  List.zipWith (fun a b => a || b) mismatch previous_mismatch

/-- The state that `compute_loss` hands to the model, after the guarded
backward mask `if args.mode == 'MatchNet': if not periodic and state_:
selective_zero(state_, mismatch, forward=False)`. -/
def carriedState (mode : Mode) (periodic : Bool) (mismatch : List Bool)
    (state_ : Option StateStore) : Option StateStore :=
  if mode = Mode.MatchNet ∧ periodic = false ∧ truthyOpt state_ = true then
    match state_ with
    | some s => some (selective_zero s mismatch false)
    | none => none
  else state_

/-- Everything one call of `compute_loss` produces or mutates: the state
as handed to the model (with any backward-mask hooks registered on it),
the forward-masked new state, the (possibly overwritten) `x_hat.data`,
this step's loss contributions, the updated `ce_count` and the updated
`previous_mismatch`. -/
structure StepOut where
  carried : Option StateStore
  state : StateStore
  x_hat : Tensor
  mse_loss : Rat
  ce_loss : Rat
  per_ce_loss : Option Rat
  rpl_loss : Rat
  ce_count : Nat
  previous_mismatch : List Bool

/-- `compute_loss(x_, next_x, y_, state_, periodic)` from `train` in
`main.py`, with `mismatch`, `previous_mismatch` and `total_loss['ce_count']`
(the closure variables it reads and writes) passed explicitly. -/
def compute_loss (mode : Mode) (cfg : LossCfg) (model : ModelFun)
    (x_ next_x : Tensor) (y_ : Labels) (state_ : Option StateStore)
    (mismatch previous_mismatch : List Bool) (ce_count : Nat)
    (periodic : Bool) : StepOut :=
  let carried := carriedState mode periodic mismatch state_
  let out := model x_ carried
  let x_hat0 := out.1
  let st1 := out.2.1
  let idx := out.2.2
  let st2 := selective_zero st1 mismatch true
  let x_hat := selective_match x_hat0 next_x (resetLanes mismatch previous_mismatch)
  let mse_loss := cfg.mse x_hat next_x
  let ce := selective_cross_entropy idx y_ mismatch cfg.nll_final ce_count
  let per := if periodic then some (cfg.nll_periodic idx y_) else none
  let rpl := cfg.mse x_hat x_
  ⟨carried, st2, x_hat, mse_loss, ce.1, per, rpl, ce.2, mismatch⟩

/-- The seam step of `train`: the `if from_past:` block that treats the
leftover frame of the previous physical batch as step -1.  MatchNet calls
`compute_loss(..., periodic=True)`; TempoNet calls it with the default
`periodic=False`. -/
def seam_step (mode : Mode) (cfg : LossCfg) (model : ModelFun)
    (from_past : Tensor × Labels) (x0 : Tensor) (y0 : Labels)
    (state : Option StateStore) (previous_mismatch : List Bool)
    (ce_count : Nat) : StepOut :=
  let mismatch := labelMismatch y0 from_past.2
  match mode with
  | .MatchNet =>
      compute_loss .MatchNet cfg model from_past.1 x0 from_past.2 state
        mismatch previous_mismatch ce_count true
  | .TempoNet =>
      compute_loss .TempoNet cfg model from_past.1 x0 from_past.2 state
        mismatch previous_mismatch ce_count false

/-- The running totals dictionary
`{'mse': 0, 'ce': 0, 'ce_count': 0, 'per_ce': 0, 'rpl': 0}`. -/
structure Totals where
  mse : Rat
  ce : Rat
  ce_count : Nat
  per_ce : Rat
  rpl : Rat
deriving DecidableEq

def Totals.zero : Totals := ⟨0, 0, 0, 0, 0⟩

/-- The loop state of `validate`: totals, recurrent state, the current
`(x, y)` batch, `previous_mismatch` and the enumeration index. -/
structure VLoop where
  totals : Totals
  state : Option StateStore
  x : Tensor
  y : Labels
  previous_mismatch : List Bool
  batch_nb : Nat

/-- One iteration of the `for batch_nb, (next_x, next_y) in batches:`
loop of `validate`. -/
def vstep (cfg : LossCfg) (model : ModelFun) (bigT : Nat)
    (l : VLoop) (batch : Tensor × Labels) : VLoop :=
  let mismatch := labelMismatch batch.2 l.y
  let out := model l.x l.state
  let x_hat0 := out.1
  let st1 := out.2.1
  let idx := out.2.2
  let st2 := selective_zero st1 mismatch true
  let x_hat := selective_match x_hat0 batch.1 (resetLanes mismatch l.previous_mismatch)
  let ce := selective_cross_entropy idx l.y mismatch cfg.nll_final l.totals.ce_count
  let per := if l.batch_nb % bigT = 0 then cfg.nll_periodic idx l.y else 0
  let totals : Totals :=
    ⟨l.totals.mse + cfg.mse x_hat batch.1,
     l.totals.ce + ce.1,
     ce.2,
     l.totals.per_ce + per,
     l.totals.rpl + cfg.mse x_hat l.x⟩
  ⟨totals, some st2, batch.1, batch.2, mismatch, l.batch_nb + 1⟩

/-- The whole `validate` loop, after the first batch `(x0, y0)` has been
consumed as the initial frame: `previous_mismatch` starts all-true and
`batch_nb` starts at 1. -/
def validateLoop (cfg : LossCfg) (model : ModelFun) (bigT : Nat)
    (x0 : Tensor) (y0 : Labels) (rest : List (Tensor × Labels)) : VLoop :=
  rest.foldl (vstep cfg model bigT)
    ⟨Totals.zero, none, x0, y0, List.replicate y0.length true, 1⟩

/-- `validate(val_loader, model, loss_fun)` from `main.py`.  The final
in-place normalisation divides `mse` and `rpl` by `len(val_loader)`,
`per_ce` by `len(val_loader) / args.big_t` and `ce` by
`total_loss['ce_count']`; the Python divisions raise `ZeroDivisionError`
when `big_t` or `ce_count` is zero (and `next(batches)` raises
`StopIteration` on an empty loader), modelled by `none`. -/
def validate (cfg : LossCfg) (model : ModelFun) (bigT : Nat)
    (batches : List (Tensor × Labels)) : Option Totals :=
  match batches with
  | [] => none
  | (x0, y0) :: rest =>
      let fin := validateLoop cfg model bigT x0 y0 rest
      let t := fin.totals
      let len : Rat := (rest.length + 1 : Nat)
      if bigT = 0 then none
      else if t.ce_count = 0 then none
      else some ⟨t.mse / len, t.ce / (t.ce_count : Rat), t.ce_count,
                 t.per_ce / (len / (bigT : Rat)), t.rpl / len⟩

/-- The logging-interval normalisation of `train` (lines 330-333): `mse`
and `rpl` are divided by `log_interval * big_t`, `per_ce` by
`log_interval`, and `ce` by `ce_count` only under the guard
`if total_loss['ce_count']:`. -/
def train_log_totals (t : Totals) (log_interval bigT : Nat) : Totals :=
  ⟨t.mse / ((log_interval * bigT : Nat) : Rat),
   if t.ce_count ≠ 0 then t.ce / (t.ce_count : Rat) else t.ce,
   t.ce_count,
   t.per_ce / ((log_interval : Nat) : Rat),
   t.rpl / ((log_interval * bigT : Nat) : Rat)⟩

/-- `adjust_learning_rate(opt, epoch)`:
`lr = args.lr * (d ** -(epoch // e))` applied to every parameter group.
`d` and `e` are the two floats of `args.lr_decay`, so `epoch // e` is
float floor-division, modelled by `Int.floor` on rationals. -/
def adjust_learning_rate (lr_decay : Rat × Rat) (lr0 : Rat) (epoch : Nat)
    (param_groups : List Rat) : List Rat :=
  let lr := lr0 * lr_decay.1 ^ (-(⌊(epoch : Rat) / lr_decay.2⌋))
  param_groups.map (fun _ => lr)

/-- The two failure shapes of `load_state_dict`:
`KeyError('unexpected key "<name>" in state_dict')` and
`KeyError('missing keys in state_dict: "<set>"')`. -/
inductive LoadErr where
  | unexpectedKey : String → LoadErr
  | missingKeys : List String → LoadErr
deriving DecidableEq

/-- `own_state[name].copy_(param)` on an association-list state dict. -/
def updateKey (own : List (String × Rat)) (k : String) (v : Rat) :
    List (String × Rat) :=
  own.map (fun p => if p.1 = k then (k, v) else p)

def lookupVal : List (String × Rat) → String → Option Rat
  | [], _ => none
  | (k, v) :: rest, key => if k = key then some v else lookupVal rest key

/-- The `for name, param in state_dict.items():` loop of
`load_state_dict`: strip the 19-character `'module.inner_model.'` part,
raise on a key the live model lacks, silently skip `stabiliser` keys,
otherwise copy the parameter.  Python's
`name.startswith('stabiliser')` is rendered as `name.take 10 =
"stabiliser"` (the prefix is 10 characters long). -/
def loadLoop : List (String × Rat) → List (String × Rat) →
    Except LoadErr (List (String × Rat))
  | own, [] => .ok own
  | own, (k, v) :: rest =>
      let name := k.drop 19
      if name ∈ own.map Prod.fst then
        if name.take 10 = "stabiliser" then loadLoop own rest
        else loadLoop (updateKey own name v) rest
      else .error (.unexpectedKey name)

/-- `load_state_dict(new_model, state_dict)` from `main.py`: the copy
loop followed by the missing-key check
`missing = set(own_state.keys()) - set([k[19:] for k in state_dict.keys()])`. -/
def load_state_dict (own : List (String × Rat)) (sd : List (String × Rat)) :
    Except LoadErr (List (String × Rat)) :=
  match loadLoop own sd with
  | .error e => .error e
  | .ok own2 =>
      let stripped := sd.map (fun p => p.1.drop 19)
      let missing := (own2.map Prod.fst).filter (fun k => decide (k ∉ stripped))
      if missing.isEmpty then .ok own2 else .error (.missingKeys missing)

/-! ## Helper lemmas -/

theorem nonzeroIdxAux_shift (l : List Bool) : ∀ (i : Nat),
    nonzeroIdxAux (i + 1) l = (nonzeroIdxAux i l).map (fun j => j + 1) := by
  induction l with
  | nil => intro i; simp [nonzeroIdxAux]
  | cons b rest ih =>
      intro i
      cases b <;> simp [nonzeroIdxAux, ih (i + 1)]

theorem mem_nonzeroIdx (l : List Bool) : ∀ (j : Nat),
    j ∈ nonzeroIdx l ↔ l.getD j false = true := by
  induction l with
  | nil => intro j; simp [nonzeroIdx, nonzeroIdxAux]
  | cons b rest ih =>
      intro j
      have hshift : nonzeroIdxAux 1 rest = (nonzeroIdx rest).map (fun j => j + 1) :=
        nonzeroIdxAux_shift rest 0
      cases j with
      | zero =>
          cases b <;> simp [nonzeroIdx, nonzeroIdxAux, hshift]
      | succ j' =>
          have hj : j' ∈ nonzeroIdxAux 0 rest ↔ rest.getD j' false = true := ih j'
          cases b <;> simp [nonzeroIdx, nonzeroIdxAux, hshift, hj]

theorem nonzeroIdxAux_length (l : List Bool) : ∀ (i : Nat),
    (nonzeroIdxAux i l).length = l.count true := by
  induction l with
  | nil => intro i; simp [nonzeroIdxAux]
  | cons b rest ih =>
      intro i
      cases b <;> simp [nonzeroIdxAux, ih (i + 1), List.count_cons]

theorem nonzeroIdx_length (l : List Bool) : (nonzeroIdx l).length = l.count true :=
  nonzeroIdxAux_length l 0

theorem indexFillFrom_getD (b : List Nat) (t : Tensor) : ∀ (i j : Nat),
    (indexFillFrom b i t).getD j [] =
      if (i + j) ∈ b then zeroSlice (t.getD j []) else t.getD j [] := by
  induction t with
  | nil => intro i j; simp [indexFillFrom, zeroSlice]
  | cons lane rest ih =>
      intro i j
      cases j with
      | zero => simp [indexFillFrom]
      | succ j' =>
          have harith : i + (j' + 1) = (i + 1) + j' := by omega
          rw [harith]
          simp only [indexFillFrom, List.getD_cons_succ]
          exact ih (i + 1) j'

theorem indexFill_getD (t : Tensor) (b : List Nat) (j : Nat) :
    (indexFill t b).getD j [] =
      if j ∈ b then zeroSlice (t.getD j []) else t.getD j [] := by
  simpa using indexFillFrom_getD b t 0 j

theorem indexFillFrom_length (b : List Nat) (t : Tensor) : ∀ (i : Nat),
    (indexFillFrom b i t).length = t.length := by
  induction t with
  | nil => intro i; simp [indexFillFrom]
  | cons lane rest ih => intro i; simp [indexFillFrom, ih (i + 1)]

theorem copyFrom_getD (x : Tensor) (b : List Nat) (t : Tensor) : ∀ (i j : Nat),
    (copyFrom x b i t).getD j [] =
      if (i + j) ∈ b ∧ j < t.length then x.getD (i + j) [] else t.getD j [] := by
  induction t with
  | nil => intro i j; simp [copyFrom]
  | cons lane rest ih =>
      intro i j
      cases j with
      | zero => simp [copyFrom]
      | succ j' =>
          have harith : i + (j' + 1) = (i + 1) + j' := by omega
          rw [harith]
          simp only [copyFrom, List.getD_cons_succ, List.length_cons,
            Nat.add_lt_add_iff_right]
          exact ih (i + 1) j'

theorem copyFrom_length (x : Tensor) (b : List Nat) (t : Tensor) : ∀ (i : Nat),
    (copyFrom x b i t).length = t.length := by
  induction t with
  | nil => intro i; simp [copyFrom]
  | cons lane rest ih => intro i; simp [copyFrom, ih (i + 1)]

theorem list_eq_of_getD {α : Type} (d : α) : ∀ (l1 l2 : List α),
    l1.length = l2.length → (∀ i, l1.getD i d = l2.getD i d) → l1 = l2 := by
  intro l1
  induction l1 with
  | nil => intro l2 hl _; cases l2 with
      | nil => rfl
      | cons a rest => simp at hl
  | cons a rest ih =>
      intro l2 hl hD
      cases l2 with
      | nil => simp at hl
      | cons a2 rest2 =>
          have h0 := hD 0
          simp at h0 hl
          have := ih rest2 hl (fun i => by simpa using hD (i + 1))
          rw [h0, this]

theorem selective_zero_noop (s : StateStore) (new : List Bool) (f : Bool)
    (h : new.any id = false) : selective_zero s new f = s := by
  simp [selective_zero, h]

theorem tensors_selective_zero_forward (s : StateStore) (new : List Bool) :
    (selective_zero s new true).tensors =
      if new.any id then s.tensors.map (maskTensor (nonzeroIdx new))
      else s.tensors := by
  by_cases h : new.any id <;> cases s <;>
    simp [selective_zero, h, StateStore.tensors]

theorem tensors_selective_zero_backward (s : StateStore) (new : List Bool) :
    (selective_zero s new false).tensors =
      if new.any id then s.tensors.map (hookTensor (nonzeroIdx new))
      else s.tensors := by
  by_cases h : new.any id <;> cases s <;>
    simp [selective_zero, h, StateStore.tensors]

theorem getD_map_lt {α β : Type} (f : α → β) (d : α) (e : β) :
    ∀ (l : List α) (k : Nat), k < l.length → (l.map f).getD k e = f (l.getD k d) := by
  intro l
  induction l with
  | nil => intro k hk; simp at hk
  | cons a rest ih =>
      intro k hk
      cases k with
      | zero => simp
      | succ k' => simpa using ih k' (by simpa using hk)

theorem labelMismatch_self_any (y : Labels) : (labelMismatch y y).any id = false := by
  induction y with
  | nil => simp [labelMismatch]
  | cons a rest ih =>
      have h0 : decide (a ≠ a) = false := by simp
      simp only [labelMismatch, List.zipWith_cons_cons, List.any_cons, h0,
        id_eq, Bool.false_or]
      exact ih

theorem any_of_getD (l : List Bool) : ∀ (i : Nat),
    l.getD i false = true → l.any id = true := by
  induction l with
  | nil => intro i h; simp at h
  | cons b rest ih =>
      intro i h
      cases i with
      | zero =>
          simp only [List.getD_cons_zero] at h
          simp [h]
      | succ i' =>
          simp only [List.getD_cons_succ] at h
          simp [ih i' h]

theorem count_true_eq_zero (l : List Bool) (h : l.any id = false) :
    l.count true = 0 := by
  rw [List.count_eq_zero]
  intro hmem
  have htrue : l.any id = true := List.any_eq_true.mpr ⟨true, hmem, rfl⟩
  rw [h] at htrue
  exact Bool.false_ne_true htrue

/-- The `ce_count` contribution of one `selective_cross_entropy` call is
the number of true entries of the mismatch vector, in every case. -/
theorem sce_count (logits : Logits) (y : Labels) (new : List Bool)
    (loss : Logits → Labels → Rat) (c : Nat) :
    (selective_cross_entropy logits y new loss c).2 = c + new.count true := by
  cases hany : new.any id with
  | false => simp [selective_cross_entropy, hany, count_true_eq_zero new hany]
  | true => simp [selective_cross_entropy, hany, nonzeroIdx_length]

/-- A sequence of `selective_cross_entropy` calls threading the running
`ce_count`, one `(logits, labels, mismatch)` triple per call. -/
def sceCountFold (loss : Logits → Labels → Rat)
    (calls : List (Logits × Labels × List Bool)) (c0 : Nat) : Nat :=
  calls.foldl (fun c p => (selective_cross_entropy p.1 p.2.1 p.2.2 loss c).2) c0

theorem sceCountFold_sum (loss : Logits → Labels → Rat) :
    ∀ (calls : List (Logits × Labels × List Bool)) (c0 : Nat),
      sceCountFold loss calls c0
        = c0 + (calls.map (fun p => p.2.2.count true)).sum := by
  intro calls
  induction calls with
  | nil => intro c0; simp [sceCountFold]
  | cons p rest ih =>
      intro c0
      have hstep : sceCountFold loss (p :: rest) c0
          = sceCountFold loss rest ((selective_cross_entropy p.1 p.2.1 p.2.2 loss c0).2) := rfl
      rw [hstep, ih, sce_count]
      simp only [List.map_cons, List.sum_cons]
      omega

/-! ## Claim theorems -/

/-- C2: for a mismatch vector with no true entries, `selective_zero` in
forward and in backward mode returns the state unchanged (so every held
tensor keeps its values and no gradient hook is registered), and
`selective_cross_entropy` returns a zero loss and leaves the running
`ce_count` unchanged. -/
theorem no_mismatch_noop (s : StateStore) (new : List Bool)
    (logits : Logits) (y : Labels) (loss : Logits → Labels → Rat) (c : Nat)
    (h : new.any id = false) :
    selective_zero s new true = s ∧
    selective_zero s new false = s ∧
    selective_cross_entropy logits y new loss c = (0, c) := by
  refine ⟨selective_zero_noop s new true h, selective_zero_noop s new false h, ?_⟩
  simp [selective_cross_entropy, h]

theorem no_mismatch_noop_witness :
    selective_zero (StateStore.flat [⟨[[3, 4]], []⟩]) [false, false] true
        = StateStore.flat [⟨[[3, 4]], []⟩] ∧
    selective_zero (StateStore.flat [⟨[[3, 4]], []⟩]) [false, false] false
        = StateStore.flat [⟨[[3, 4]], []⟩] ∧
    selective_cross_entropy [[1]] [0] [false, false] (fun _ _ => 5) 7 = (0, 7) :=
  no_mismatch_noop (StateStore.flat [⟨[[3, 4]], []⟩]) [false, false]
    [[1]] [0] (fun _ _ => 5) 7 (by decide)

/-- C4: a `selective_cross_entropy` call with at least one mismatched
lane increments `ce_count` by exactly the number of true entries of the
mismatch vector and computes the loss only over the mismatched lanes'
logits and labels (the selected index list holds exactly the mismatched
lane indices); threading the count through any sequence of calls adds
the total number of true entries seen. -/
theorem selective_ce_count (logits : Logits) (y : Labels) (new : List Bool)
    (loss : Logits → Labels → Rat) (c : Nat) (i : Nat)
    (calls : List (Logits × Labels × List Bool)) (c0 : Nat)
    (h : new.any id = true) :
    (selective_cross_entropy logits y new loss c).2 = c + new.count true ∧
    (selective_cross_entropy logits y new loss c).1
        = loss (indexSelect logits (nonzeroIdx new)) (indexSelect y (nonzeroIdx new)) ∧
    (i ∈ nonzeroIdx new ↔ new.getD i false = true) ∧
    sceCountFold loss calls c0
        = c0 + (calls.map (fun p => p.2.2.count true)).sum := by
  refine ⟨sce_count logits y new loss c, ?_, mem_nonzeroIdx new i, sceCountFold_sum loss calls c0⟩
  simp [selective_cross_entropy, h]

theorem selective_ce_count_witness :
    (selective_cross_entropy [[1], [2]] [5, 6] [true, false] (fun _ l => ((l.sum : Int) : Rat)) 3).2
        = 3 + [true, false].count true ∧
    (selective_cross_entropy [[1], [2]] [5, 6] [true, false] (fun _ l => ((l.sum : Int) : Rat)) 3).1
        = (fun (_ : Logits) (l : Labels) => ((l.sum : Int) : Rat))
            (indexSelect [[1], [2]] (nonzeroIdx [true, false]))
            (indexSelect [5, 6] (nonzeroIdx [true, false])) ∧
    (0 ∈ nonzeroIdx [true, false] ↔ [true, false].getD 0 false = true) ∧
    sceCountFold (fun _ l => ((l.sum : Int) : Rat))
        [([[1]], [2], [true, true]), ([[3]], [4], [false])] 5
        = 5 + ([([[1]], [2], [true, true]), ([[3]], [4], [false])].map
            (fun p => p.2.2.count true)).sum :=
  selective_ce_count [[1], [2]] [5, 6] [true, false]
    (fun _ l => ((l.sum : Int) : Rat)) 3 0
    [([[1]], [2], [true, true]), ([[3]], [4], [false])] 5 (by decide)

/-- C5: forward masking (`selective_zero` with `forward=True`) zeroes the
slice at every mismatched lane index in every tensor of the state — both
halves of the paired cell/hidden variant are covered by
`StateStore.tensors` — registers no hook, and leaves the slice at every
non-mismatched lane index byte-identical, so masking lane `i` never
affects another lane `j`. -/
theorem forward_mask_lanes (s : StateStore) (new : List Bool) (k i : Nat)
    (hk : k < s.tensors.length) :
    ((selective_zero s new true).tensors.getD k default).hooks
        = (s.tensors.getD k default).hooks ∧
    (new.getD i false = true →
      ((selective_zero s new true).tensors.getD k default).data.getD i []
        = zeroSlice ((s.tensors.getD k default).data.getD i [])) ∧
    (new.getD i false = false →
      ((selective_zero s new true).tensors.getD k default).data.getD i []
        = (s.tensors.getD k default).data.getD i []) := by
  cases hany : new.any id with
  | false =>
      rw [selective_zero_noop s new true hany]
      have hne : new.any id ≠ true := by
        rw [hany]
        exact Bool.false_ne_true
      exact ⟨rfl, fun ht => absurd (any_of_getD new i ht) hne, fun _ => rfl⟩
  | true =>
      have htens : (selective_zero s new true).tensors
          = s.tensors.map (maskTensor (nonzeroIdx new)) := by
        rw [tensors_selective_zero_forward, hany, if_pos rfl]
      rw [htens, getD_map_lt (maskTensor (nonzeroIdx new)) default default s.tensors k hk]
      refine ⟨rfl, fun ht => ?_, fun hf => ?_⟩
      · show (indexFill (s.tensors.getD k default).data (nonzeroIdx new)).getD i []
            = zeroSlice ((s.tensors.getD k default).data.getD i [])
        rw [indexFill_getD, if_pos ((mem_nonzeroIdx new i).mpr ht)]
      · show (indexFill (s.tensors.getD k default).data (nonzeroIdx new)).getD i []
            = (s.tensors.getD k default).data.getD i []
        have hnot : i ∉ nonzeroIdx new := by
          intro hmem
          rw [mem_nonzeroIdx new i] at hmem
          rw [hf] at hmem
          exact Bool.false_ne_true hmem
        rw [indexFill_getD, if_neg hnot]

theorem forward_mask_lanes_witness :
    ((selective_zero (StateStore.pair [⟨[[1, 2], [3, 4]], []⟩] [⟨[[5], [6]], [[1]]⟩])
        [true, false] true).tensors.getD 0 default).hooks
      = ((StateStore.pair [⟨[[1, 2], [3, 4]], []⟩] [⟨[[5], [6]], [[1]]⟩]).tensors.getD 0 default).hooks ∧
    ([true, false].getD 0 false = true →
      ((selective_zero (StateStore.pair [⟨[[1, 2], [3, 4]], []⟩] [⟨[[5], [6]], [[1]]⟩])
          [true, false] true).tensors.getD 0 default).data.getD 0 []
        = zeroSlice (((StateStore.pair [⟨[[1, 2], [3, 4]], []⟩] [⟨[[5], [6]], [[1]]⟩]).tensors.getD 0 default).data.getD 0 [])) ∧
    ([true, false].getD 0 false = false →
      ((selective_zero (StateStore.pair [⟨[[1, 2], [3, 4]], []⟩] [⟨[[5], [6]], [[1]]⟩])
          [true, false] true).tensors.getD 0 default).data.getD 0 []
        = ((StateStore.pair [⟨[[1, 2], [3, 4]], []⟩] [⟨[[5], [6]], [[1]]⟩]).tensors.getD 0 default).data.getD 0 []) :=
  forward_mask_lanes (StateStore.pair [⟨[[1, 2], [3, 4]], []⟩] [⟨[[5], [6]], [[1]]⟩])
    [true, false] 0 0 (by decide)

theorem resetLanes_getD (mm : List Bool) : ∀ (pm : List Bool) (i : Nat),
    i < mm.length → i < pm.length →
    (resetLanes mm pm).getD i false = (mm.getD i false || pm.getD i false) := by
  induction mm with
  | nil => intro pm i h1 _; simp at h1
  | cons a mrest ih =>
      intro pm i h1 h2
      cases pm with
      | nil => simp at h2
      | cons b prest =>
          cases i with
          | zero => simp [resetLanes]
          | succ i' =>
              simp only [resetLanes, List.zipWith_cons_cons, List.getD_cons_succ]
              exact ih prest i' (by simpa using h1) (by simpa using h2)

theorem getD_false_of_any_false (l : List Bool) (h : l.any id = false) (i : Nat) :
    l.getD i false = false := by
  cases hg : l.getD i false with
  | false => rfl
  | true =>
      have := any_of_getD l i hg
      rw [h] at this
      exact absurd this Bool.false_ne_true

theorem selective_match_noop (x_hat x : Tensor) (new : List Bool)
    (h : new.any id = false) : selective_match x_hat x new = x_hat := by
  simp [selective_match, h]

theorem selective_match_eq_copy (x_hat x : Tensor) (new : List Bool)
    (h : new.any id = true) :
    selective_match x_hat x new = copyFrom x (nonzeroIdx new) 0 x_hat := by
  simp only [selective_match, h, if_true]

theorem selective_match_length (x_hat x : Tensor) (new : List Bool) :
    (selective_match x_hat x new).length = x_hat.length := by
  cases h : new.any id with
  | false => rw [selective_match_noop x_hat x new h]
  | true => rw [selective_match_eq_copy x_hat x new h, copyFrom_length]

theorem getD_replicate_true : ∀ (n j : Nat), j < n →
    (List.replicate n true).getD j false = true := by
  intro n
  induction n with
  | zero => intro j h; omega
  | succ n' ih =>
      intro j h
      cases j with
      | zero => simp [List.replicate_succ]
      | succ j' => simpa [List.replicate_succ] using ih j' (by omega)

/-- With an all-true reset mask of the predicted tensor's length,
`selective_match` returns the true-next tensor. -/
theorem selective_match_all_true (x_hat x : Tensor)
    (hx : x.length = x_hat.length) :
    selective_match x_hat x (List.replicate x_hat.length true) = x := by
  cases hn : x_hat.length with
  | zero =>
      have h1 : x_hat = [] := List.length_eq_zero.mp hn
      have h2 : x = [] := List.length_eq_zero.mp (by omega)
      rw [h1, h2]
      rfl
  | succ n' =>
      have hany : (List.replicate (n' + 1) true).any id = true := by
        rw [List.replicate_succ]
        simp
      rw [selective_match_eq_copy _ _ _ hany]
      apply list_eq_of_getD []
      · rw [copyFrom_length]
        omega
      · intro j
        rw [copyFrom_getD]
        simp only [Nat.zero_add]
        by_cases hj : j < x_hat.length
        · rw [if_pos ⟨(mem_nonzeroIdx _ j).mpr (getD_replicate_true (n' + 1) j (by omega)), hj⟩]
        · rw [if_neg (fun hc => hj hc.2), List.getD_eq_default _ _ (by omega),
            List.getD_eq_default _ _ (by omega)]

/-- C3: `compute_loss` hands `selective_match` exactly the lane-wise OR
of the current and the previous step's mismatch as its reset mask;
`selective_match` overwrites the predicted tensor with the true next
frame exactly on the flagged lanes and leaves every other lane
byte-identical; with an all-false mask the predicted tensor is returned
unchanged and with an all-true mask it equals the true-next tensor. -/
theorem selective_match_reset_lanes
    (mode : Mode) (cfg : LossCfg) (model : ModelFun)
    (x_ next_x : Tensor) (y_ : Labels) (state_ : Option StateStore)
    (mm pm : List Bool) (cc : Nat) (periodic : Bool)
    (x_hat x : Tensor) (i : Nat)
    (hm : mm.length = x_hat.length) (hp : pm.length = x_hat.length)
    (hx : x.length = x_hat.length) (hi : i < x_hat.length) :
    (compute_loss mode cfg model x_ next_x y_ state_ mm pm cc periodic).x_hat
        = selective_match (model x_ (carriedState mode periodic mm state_)).1 next_x
            (resetLanes mm pm) ∧
    (selective_match x_hat x (resetLanes mm pm)).getD i []
        = (if (mm.getD i false || pm.getD i false) = true
           then x.getD i [] else x_hat.getD i []) ∧
    ((resetLanes mm pm).any id = false →
        selective_match x_hat x (resetLanes mm pm) = x_hat) ∧
    selective_match x_hat x (List.replicate x_hat.length true) = x := by
  have hrl : (resetLanes mm pm).getD i false = (mm.getD i false || pm.getD i false) :=
    resetLanes_getD mm pm i (by omega) (by omega)
  refine ⟨rfl, ?_, fun h => selective_match_noop x_hat x _ h,
    selective_match_all_true x_hat x hx⟩
  cases hany : (resetLanes mm pm).any id with
  | false =>
      rw [selective_match_noop x_hat x _ hany, ← hrl,
        getD_false_of_any_false _ hany i, if_neg Bool.false_ne_true]
  | true =>
      rw [selective_match_eq_copy x_hat x _ hany, copyFrom_getD]
      simp only [Nat.zero_add]
      by_cases hor : (mm.getD i false || pm.getD i false) = true
      · rw [if_pos ⟨(mem_nonzeroIdx _ i).mpr (hrl.trans hor), hi⟩, if_pos hor]
      · have hmemn : i ∉ nonzeroIdx (resetLanes mm pm) := by
          intro hmem
          rw [mem_nonzeroIdx _ i, hrl] at hmem
          exact hor hmem
        rw [if_neg (fun hc => hmemn hc.1), if_neg hor]

theorem selective_match_reset_lanes_witness :
    (compute_loss Mode.MatchNet ⟨fun _ _ => 1, fun _ _ => 0, fun _ _ => 0⟩
        (fun xx ss => (xx, (match ss with | some tt => tt | none => .flat []), [[1]]))
        [[9]] [[7]] [0] none [true, false] [false, true] 0 false).x_hat
        = selective_match
            ((fun (xx : Tensor) (ss : Option StateStore) =>
                (xx, (match ss with | some tt => tt | none => StateStore.flat []), ([[1]] : Logits)))
              [[9]] (carriedState Mode.MatchNet false [true, false] none)).1 [[7]]
            (resetLanes [true, false] [false, true]) ∧
    (selective_match [[1], [2]] [[8], [9]] (resetLanes [true, false] [false, true])).getD 0 []
        = (if ([true, false].getD 0 false || [false, true].getD 0 false) = true
           then ([[8], [9]] : Tensor).getD 0 [] else ([[1], [2]] : Tensor).getD 0 []) ∧
    ((resetLanes [true, false] [false, true]).any id = false →
        selective_match [[1], [2]] [[8], [9]] (resetLanes [true, false] [false, true])
          = [[1], [2]]) ∧
    selective_match [[1], [2]] [[8], [9]] (List.replicate ([[1], [2]] : Tensor).length true)
        = [[8], [9]] :=
  selective_match_reset_lanes Mode.MatchNet ⟨fun _ _ => 1, fun _ _ => 0, fun _ _ => 0⟩
    (fun xx ss => (xx, (match ss with | some tt => tt | none => .flat []), [[1]]))
    [[9]] [[7]] [0] none [true, false] [false, true] 0 false
    [[1], [2]] [[8], [9]] 0 (by decide) (by decide) (by decide) (by decide)

/-- A concrete loss configuration for witnesses: constant losses. -/
def exCfg : LossCfg := ⟨fun _ _ => 1, fun _ _ => 0, fun _ _ => 0⟩

/-- A concrete black-box model for witnesses: echoes the input frame,
passes the state through (empty state if absent), constant logits. -/
def exModel : ModelFun :=
  fun xx ss => (xx, (match ss with | some tt => tt | none => .flat []), [[1]])

/-- A concrete one-tensor state with no registered hooks. -/
def exState : StateStore := .flat [⟨[[5]], []⟩]

theorem carriedState_skip (mode : Mode) (periodic : Bool) (mm : List Bool)
    (so : Option StateStore)
    (h : ¬(mode = Mode.MatchNet ∧ periodic = false ∧ truthyOpt so = true)) :
    carriedState mode periodic mm so = so := by
  simp only [carriedState]
  rw [if_neg h]

theorem mem_selective_zero_forward_lane (s1 : StateStore) (new : List Bool)
    (hany : new.any id = true) (i : Nat) (hi : new.getD i false = true) :
    ∀ t ∈ (selective_zero s1 new true).tensors, ∀ v ∈ t.data.getD i [], v = (0 : Int) := by
  intro t ht v hv
  rw [tensors_selective_zero_forward, hany, if_pos rfl] at ht
  rcases List.mem_map.mp ht with ⟨t0, -, rfl⟩
  have hz : (maskTensor (nonzeroIdx new) t0).data.getD i []
      = zeroSlice (t0.data.getD i []) := by
    show (indexFill t0.data (nonzeroIdx new)).getD i [] = _
    rw [indexFill_getD, if_pos ((mem_nonzeroIdx new i).mpr hi)]
  rw [hz] at hv
  rcases List.mem_map.mp hv with ⟨w, -, rfl⟩
  rfl

/-- C1 counterexample: at a seam step whose mismatch vector is `[true]`
(label 0 became 1 at lane 0), the state carried into the predictor is
returned unchanged both in MatchNet mode (the seam call passes
`periodic=True`, which disables the backward mask) and in TempoNet mode
(which never backward-masks), so no registered hook blocks the
mismatched lane's gradient — the carried state is not backward-masked at
the seam in either mode. -/
theorem seam_backward_mask_cex :
    labelMismatch [1] [0] = [true] ∧
    (seam_step Mode.MatchNet exCfg exModel ([[1]], [0]) [[2]] [1]
        (some exState) [false] 0).carried = some exState ∧
    (seam_step Mode.TempoNet exCfg exModel ([[1]], [0]) [[2]] [1]
        (some exState) [false] 0).carried = some exState ∧
    exState.tensors.all (fun t => ! t.blocksLane 0) = true := by
  refine ⟨rfl, rfl, rfl, rfl⟩

/-- C1 amended: at the seam step the trainer forward-masks the newly
produced state in both modes — every tensor of the new state is zeroed
at each mismatched lane — but it does not backward-mask the carried
state in either mode: the carried state reaches the model unchanged,
because MatchNet's seam call passes `periodic=True` (which skips the
backward mask) and TempoNet never applies it. -/
theorem seam_step_masking (cfg : LossCfg) (model : ModelFun)
    (fp : Tensor × Labels) (x0 : Tensor) (y0 : Labels) (st : StateStore)
    (pm : List Bool) (cc : Nat) (mode : Mode) (i : Nat)
    (hi : (labelMismatch y0 fp.2).getD i false = true) :
    (seam_step mode cfg model fp x0 y0 (some st) pm cc).carried = some st ∧
    (∀ t ∈ (seam_step mode cfg model fp x0 y0 (some st) pm cc).state.tensors,
        ∀ v ∈ t.data.getD i [], v = (0 : Int)) := by
  have hany : (labelMismatch y0 fp.2).any id = true := any_of_getD _ i hi
  constructor
  · cases mode with
    | MatchNet =>
        show carriedState Mode.MatchNet true (labelMismatch y0 fp.2) (some st) = some st
        exact carriedState_skip _ _ _ _ (fun h => Bool.noConfusion h.2.1)
    | TempoNet =>
        show carriedState Mode.TempoNet false (labelMismatch y0 fp.2) (some st) = some st
        exact carriedState_skip _ _ _ _ (fun h => Mode.noConfusion h.1)
  · cases mode with
    | MatchNet => exact mem_selective_zero_forward_lane _ _ hany i hi
    | TempoNet => exact mem_selective_zero_forward_lane _ _ hany i hi

theorem seam_step_masking_witness :
    (seam_step Mode.MatchNet exCfg exModel ([[1]], [0]) [[2]] [1]
        (some exState) [false] 3).carried = some exState ∧
    (∀ t ∈ (seam_step Mode.MatchNet exCfg exModel ([[1]], [0]) [[2]] [1]
        (some exState) [false] 3).state.tensors,
        ∀ v ∈ t.data.getD 0 [], v = (0 : Int)) :=
  seam_step_masking exCfg exModel ([[1]], [0]) [[2]] [1] exState [false] 3
    Mode.MatchNet 0 (by decide)

/-- When the current labels equal every following batch's labels, the
validation loop never increments `ce_count`. -/
theorem vfold_ce_count (cfg : LossCfg) (model : ModelFun) (bigT : Nat) :
    ∀ (rest : List (Tensor × Labels)) (l : VLoop),
      List.Chain' (fun a b => a = b) (l.y :: rest.map Prod.snd) →
      (rest.foldl (vstep cfg model bigT) l).totals.ce_count = l.totals.ce_count := by
  intro rest
  induction rest with
  | nil => intro l _; rfl
  | cons batch rest' ih =>
      intro l hchain
      rw [List.map_cons, List.chain'_cons] at hchain
      obtain ⟨heq, hchain'⟩ := hchain
      have hmm : labelMismatch batch.2 l.y = labelMismatch l.y l.y := by rw [heq]
      have hstep : (vstep cfg model bigT l batch).totals.ce_count = l.totals.ce_count := by
        show (selective_cross_entropy (model l.x l.state).2.2 l.y
            (labelMismatch batch.2 l.y) cfg.nll_final l.totals.ce_count).2 = _
        rw [hmm, sce_count, count_true_eq_zero _ (labelMismatch_self_any l.y)]
        omega
      have hfold : (batch :: rest').foldl (vstep cfg model bigT) l
          = rest'.foldl (vstep cfg model bigT) (vstep cfg model bigT l batch) := rfl
      rw [hfold, ih (vstep cfg model bigT l batch) hchain', hstep]

/-- C6: if no lane's label ever changes between consecutive batches of
the validation stream, the accumulated classification-decision count
`ce_count` stays zero, and the final normalisation of `validate` divides
the classification sum by that zero count — the result is undefined and
the run fails, modelled by `none`. -/
theorem validate_no_boundary (cfg : LossCfg) (model : ModelFun) (bigT : Nat)
    (x0 : Tensor) (y0 : Labels) (rest : List (Tensor × Labels))
    (hchain : List.Chain' (fun a b => a.2 = b.2) ((x0, y0) :: rest)) :
    (validateLoop cfg model bigT x0 y0 rest).totals.ce_count = 0 ∧
    validate cfg model bigT ((x0, y0) :: rest) = none := by
  have hlabels : List.Chain' (fun a b => a = b) (y0 :: rest.map Prod.snd) := by
    have hmapped := (List.chain'_map (Prod.snd)).mpr hchain
    simpa using hmapped
  have hcc : (validateLoop cfg model bigT x0 y0 rest).totals.ce_count = 0 :=
    vfold_ce_count cfg model bigT rest
      ⟨Totals.zero, none, x0, y0, List.replicate y0.length true, 1⟩ hlabels
  refine ⟨hcc, ?_⟩
  by_cases hT : bigT = 0
  · simp [validate, hT]
  · simp [validate, hT, hcc]

theorem validate_no_boundary_witness :
    (validateLoop exCfg exModel 10 [[1]] [0] [([[2]], [0])]).totals.ce_count = 0 ∧
    validate exCfg exModel 10 [([[1]], [0]), ([[2]], [0])] = none :=
  validate_no_boundary exCfg exModel 10 [[1]] [0] [([[2]], [0])]
    (List.chain'_pair.mpr rfl)

/-- The successful branch of `validate`'s final normalisation, written
out: when the loader is non-empty, `big_t` is nonzero and the decision
count is nonzero, each total is divided as on lines 374-377. -/
theorem validate_cons_eq (cfg : LossCfg) (model : ModelFun) (bigT : Nat)
    (x0 : Tensor) (y0 : Labels) (rest : List (Tensor × Labels))
    (hT : bigT ≠ 0)
    (hc : (validateLoop cfg model bigT x0 y0 rest).totals.ce_count ≠ 0) :
    validate cfg model bigT ((x0, y0) :: rest)
        = some ⟨(validateLoop cfg model bigT x0 y0 rest).totals.mse
                  / ((rest.length + 1 : Nat) : Rat),
                (validateLoop cfg model bigT x0 y0 rest).totals.ce
                  / (((validateLoop cfg model bigT x0 y0 rest).totals.ce_count : Nat) : Rat),
                (validateLoop cfg model bigT x0 y0 rest).totals.ce_count,
                (validateLoop cfg model bigT x0 y0 rest).totals.per_ce
                  / (((rest.length + 1 : Nat) : Rat) / ((bigT : Nat) : Rat)),
                (validateLoop cfg model bigT x0 y0 rest).totals.rpl
                  / ((rest.length + 1 : Nat) : Rat)⟩ := by
  simp only [validate]
  rw [if_neg hT, if_neg hc]

/-- C7 counterexample: a validation stream of two batches performs
exactly one prediction step; with a constant reconstruction loss of 1
the accumulated sum is 1, yet the reported aggregate is 1/2, because the
code divides by `len(val_loader)` (the number of incoming batches, here
2), not by the number of prediction steps performed (1). -/
theorem validate_divisor_cex :
    (validate exCfg exModel 10 [([[0]], [0]), ([[0]], [1])]).map Totals.mse
        = some (1/2) ∧
    ((1 : Rat)/2) ≠ 1 := by
  refine ⟨?_, by norm_num⟩
  rw [validate_cons_eq exCfg exModel 10 [[0]] [0] [([[0]], [1])] (by decide) (by decide)]
  have hm : (validateLoop exCfg exModel 10 [[0]] [0] [([[0]], [1])]).totals.mse
      = 0 + 1 := rfl
  simp only [Option.map_some']
  rw [hm]
  norm_num

/-- C7 amended: the validator divides the reconstruction and replication
sums by the number of incoming batches — one more than the number of
prediction steps performed, since the first batch is consumed as the
initial frame — and the periodic-classification sum by that batch count
divided by T. -/
theorem validate_normalization (cfg : LossCfg) (model : ModelFun) (bigT : Nat)
    (x0 : Tensor) (y0 : Labels) (rest : List (Tensor × Labels))
    (hT : bigT ≠ 0)
    (hc : (validateLoop cfg model bigT x0 y0 rest).totals.ce_count ≠ 0) :
    validate cfg model bigT ((x0, y0) :: rest)
        = some ⟨(validateLoop cfg model bigT x0 y0 rest).totals.mse
                  / ((rest.length + 1 : Nat) : Rat),
                (validateLoop cfg model bigT x0 y0 rest).totals.ce
                  / (((validateLoop cfg model bigT x0 y0 rest).totals.ce_count : Nat) : Rat),
                (validateLoop cfg model bigT x0 y0 rest).totals.ce_count,
                (validateLoop cfg model bigT x0 y0 rest).totals.per_ce
                  / (((rest.length + 1 : Nat) : Rat) / ((bigT : Nat) : Rat)),
                (validateLoop cfg model bigT x0 y0 rest).totals.rpl
                  / ((rest.length + 1 : Nat) : Rat)⟩ ∧
    ((x0, y0) :: rest).length = rest.length + 1 := by
  exact ⟨validate_cons_eq cfg model bigT x0 y0 rest hT hc, by simp⟩

theorem validate_normalization_witness :
    validate exCfg exModel 10 (([[0]], [0]) :: [([[0]], [1])])
        = some ⟨(validateLoop exCfg exModel 10 [[0]] [0] [([[0]], [1])]).totals.mse
                  / (([([[0]], [1])].length + 1 : Nat) : Rat),
                (validateLoop exCfg exModel 10 [[0]] [0] [([[0]], [1])]).totals.ce
                  / (((validateLoop exCfg exModel 10 [[0]] [0] [([[0]], [1])]).totals.ce_count : Nat) : Rat),
                (validateLoop exCfg exModel 10 [[0]] [0] [([[0]], [1])]).totals.ce_count,
                (validateLoop exCfg exModel 10 [[0]] [0] [([[0]], [1])]).totals.per_ce
                  / ((([([[0]], [1])].length + 1 : Nat) : Rat) / ((10 : Nat) : Rat)),
                (validateLoop exCfg exModel 10 [[0]] [0] [([[0]], [1])]).totals.rpl
                  / (([([[0]], [1])].length + 1 : Nat) : Rat)⟩ ∧
    (([[0]], [0]) :: [([[0]], [1])]).length = [([[0]], [1])].length + 1 :=
  validate_normalization exCfg exModel 10 [[0]] [0] [([[0]], [1])]
    (by decide) (by decide)

/-- C10: the training logging normalisation divides the accumulated
classification sum by `ce_count` only when that count is nonzero and
otherwise reports the raw unnormalised sum, so no division by zero can
occur — unlike `validate`, which divides by its count unconditionally
and fails (`none`) when the count is zero. -/
theorem train_log_ce_guard (t t2 : Totals) (li bigT : Nat)
    (cfg : LossCfg) (model : ModelFun) (vT : Nat)
    (x0 : Tensor) (y0 : Labels) (rest : List (Tensor × Labels))
    (h : t.ce_count = 0) (h2 : t2.ce_count ≠ 0)
    (hv : (validateLoop cfg model vT x0 y0 rest).totals.ce_count = 0) :
    (train_log_totals t li bigT).ce = t.ce ∧
    (train_log_totals t2 li bigT).ce = t2.ce / ((t2.ce_count : Nat) : Rat) ∧
    validate cfg model vT ((x0, y0) :: rest) = none := by
  refine ⟨?_, ?_, ?_⟩
  · simp [train_log_totals, h]
  · simp [train_log_totals, h2]
  · by_cases hT : vT = 0
    · simp [validate, hT]
    · simp [validate, hT, hv]

theorem train_log_ce_guard_witness :
    (train_log_totals ⟨5, 7, 0, 1, 2⟩ 10 10).ce = (⟨5, 7, 0, 1, 2⟩ : Totals).ce ∧
    (train_log_totals ⟨0, 6, 2, 0, 0⟩ 10 10).ce
        = (⟨0, 6, 2, 0, 0⟩ : Totals).ce / (((⟨0, 6, 2, 0, 0⟩ : Totals).ce_count : Nat) : Rat) ∧
    validate exCfg exModel 10 (([[3]], [7]) :: [([[4]], [7])]) = none :=
  train_log_ce_guard ⟨5, 7, 0, 1, 2⟩ ⟨0, 6, 2, 0, 0⟩ 10 10 exCfg exModel 10
    [[3]] [7] [([[4]], [7])] rfl (by decide) (by decide)

/-- C8: with a decay pair (D, E) configured, `adjust_learning_rate` sets
every parameter group's rate to `lr * D ^ -(epoch // E)`; concretely for
`lr = 0.1` and decay `(10, 2)`, epochs 0 and 1 get 0.1, epochs 2 and 3
get 0.01, and epochs 4 and 5 get 0.001. -/
theorem lr_schedule (d e lr0 : Rat) (epoch : Nat) (groups : List Rat) (g : Rat)
    (hg : g ∈ adjust_learning_rate (d, e) lr0 epoch groups) :
    g = lr0 * d ^ (-(⌊(epoch : Rat) / e⌋)) ∧
    (adjust_learning_rate (d, e) lr0 epoch groups).length = groups.length ∧
    (d = 10 → e = 2 → lr0 = 1/10 →
      ((epoch = 0 ∨ epoch = 1 → g = 1/10) ∧
       (epoch = 2 ∨ epoch = 3 → g = 1/100) ∧
       (epoch = 4 ∨ epoch = 5 → g = 1/1000))) := by
  simp only [adjust_learning_rate] at hg
  rcases List.mem_map.mp hg with ⟨a, -, heq⟩
  have hgv : g = lr0 * d ^ (-(⌊(epoch : Rat) / e⌋)) := heq.symm
  refine ⟨hgv, by simp [adjust_learning_rate], ?_⟩
  rintro rfl rfl rfl
  refine ⟨?_, ?_, ?_⟩
  · rintro (rfl | rfl) <;> rw [hgv] <;> norm_num
  · rintro (rfl | rfl) <;> rw [hgv] <;> norm_num
  · rintro (rfl | rfl) <;> rw [hgv] <;> norm_num

theorem lr_schedule_witness :
    ((1 : Rat)/10 * (10 : Rat) ^ (-(⌊((4 : Nat) : Rat) / 2⌋)))
        = (1 : Rat)/10 * (10 : Rat) ^ (-(⌊((4 : Nat) : Rat) / 2⌋)) ∧
    (adjust_learning_rate (10, 2) (1/10) 4 [1, 1]).length = [1, 1].length ∧
    ((10 : Rat) = 10 → (2 : Rat) = 2 → (1 : Rat)/10 = 1/10 →
      (((4 : Nat) = 0 ∨ (4 : Nat) = 1 → (1 : Rat)/10 * (10 : Rat) ^ (-(⌊((4 : Nat) : Rat) / 2⌋)) = 1/10) ∧
       ((4 : Nat) = 2 ∨ (4 : Nat) = 3 → (1 : Rat)/10 * (10 : Rat) ^ (-(⌊((4 : Nat) : Rat) / 2⌋)) = 1/100) ∧
       ((4 : Nat) = 4 ∨ (4 : Nat) = 5 → (1 : Rat)/10 * (10 : Rat) ^ (-(⌊((4 : Nat) : Rat) / 2⌋)) = 1/1000))) :=
  lr_schedule 10 2 (1/10) 4 [1, 1]
    ((1 : Rat)/10 * (10 : Rat) ^ (-(⌊((4 : Nat) : Rat) / 2⌋)))
    (by simp [adjust_learning_rate])

theorem updateKey_keys (own : List (String × Rat)) (k : String) (v : Rat) :
    (updateKey own k v).map Prod.fst = own.map Prod.fst := by
  induction own with
  | nil => rfl
  | cons p rest ih =>
      have hhead : (if p.1 = k then (k, v) else p).1 = p.1 := by
        by_cases h : p.1 = k
        · rw [if_pos h, h]
        · rw [if_neg h]
      calc (updateKey (p :: rest) k v).map Prod.fst
          = (if p.1 = k then (k, v) else p).1 :: (updateKey rest k v).map Prod.fst := rfl
        _ = p.1 :: rest.map Prod.fst := by rw [hhead, ih]

theorem lookupVal_updateKey_ne (own : List (String × Rat)) (name key : String)
    (v : Rat) (h : key ≠ name) :
    lookupVal (updateKey own name v) key = lookupVal own key := by
  induction own with
  | nil => rfl
  | cons p rest ih =>
      obtain ⟨pk, pv⟩ := p
      by_cases hp : pk = name
      · subst hp
        have hstep : updateKey ((pk, pv) :: rest) pk v
            = (pk, v) :: updateKey rest pk v := by
          simp [updateKey]
        rw [hstep]
        show (if pk = key then some v else lookupVal (updateKey rest pk v) key)
            = (if pk = key then some pv else lookupVal rest key)
        rw [if_neg (fun he => h he.symm), if_neg (fun he => h he.symm), ih]
      · have hstep : updateKey ((pk, pv) :: rest) name v
            = (pk, pv) :: updateKey rest name v := by
          simp [updateKey, hp]
        rw [hstep]
        show (if pk = key then some pv else lookupVal (updateKey rest name v) key)
            = (if pk = key then some pv else lookupVal rest key)
        rw [ih]

theorem loadLoop_ok_keys : ∀ (sd own r : List (String × Rat)),
    loadLoop own sd = .ok r → r.map Prod.fst = own.map Prod.fst := by
  intro sd
  induction sd with
  | nil =>
      intro own r h
      injection h with h1
      rw [← h1]
  | cons p rest ih =>
      intro own r h
      obtain ⟨k, v⟩ := p
      simp only [loadLoop] at h
      by_cases hmem : (k.drop 19) ∈ own.map Prod.fst
      · rw [if_pos hmem] at h
        by_cases hstab : (k.drop 19).take 10 = "stabiliser"
        · rw [if_pos hstab] at h
          exact ih own r h
        · rw [if_neg hstab] at h
          rw [ih (updateKey own (k.drop 19) v) r h, updateKey_keys]
      · rw [if_neg hmem] at h
        exact Except.noConfusion h

theorem loadLoop_ok_of_all : ∀ (sd own : List (String × Rat)),
    (∀ p ∈ sd, p.1.drop 19 ∈ own.map Prod.fst) →
    ∃ r, loadLoop own sd = .ok r := by
  intro sd
  induction sd with
  | nil => intro own _; exact ⟨own, rfl⟩
  | cons p rest ih =>
      intro own hall
      obtain ⟨k, v⟩ := p
      have hmem : k.drop 19 ∈ own.map Prod.fst :=
        hall (k, v) (List.mem_cons_self _ _)
      simp only [loadLoop]
      rw [if_pos hmem]
      by_cases hstab : (k.drop 19).take 10 = "stabiliser"
      · rw [if_pos hstab]
        exact ih own (fun q hq => hall q (List.mem_cons_of_mem _ hq))
      · rw [if_neg hstab]
        refine ih (updateKey own (k.drop 19) v) (fun q hq => ?_)
        rw [updateKey_keys]
        exact hall q (List.mem_cons_of_mem _ hq)

theorem loadLoop_error : ∀ (sd own : List (String × Rat)) (e : LoadErr),
    loadLoop own sd = .error e →
    ∃ n, e = .unexpectedKey n ∧ n ∉ own.map Prod.fst
        ∧ n ∈ sd.map (fun p => p.1.drop 19) := by
  intro sd
  induction sd with
  | nil => intro own e h; exact Except.noConfusion h
  | cons p rest ih =>
      intro own e h
      obtain ⟨k, v⟩ := p
      simp only [loadLoop] at h
      by_cases hmem : (k.drop 19) ∈ own.map Prod.fst
      · rw [if_pos hmem] at h
        by_cases hstab : (k.drop 19).take 10 = "stabiliser"
        · rw [if_pos hstab] at h
          obtain ⟨n, he, hn1, hn2⟩ := ih own e h
          exact ⟨n, he, hn1, by simp only [List.map_cons]; exact List.mem_cons_of_mem _ hn2⟩
        · rw [if_neg hstab] at h
          obtain ⟨n, he, hn1, hn2⟩ := ih (updateKey own (k.drop 19) v) e h
          rw [updateKey_keys] at hn1
          exact ⟨n, he, hn1, by simp only [List.map_cons]; exact List.mem_cons_of_mem _ hn2⟩
      · rw [if_neg hmem] at h
        injection h with h1
        exact ⟨k.drop 19, h1.symm, hmem,
          by simp only [List.map_cons]; exact List.mem_cons_self _ _⟩

theorem loadLoop_stab : ∀ (sd own r : List (String × Rat)),
    loadLoop own sd = .ok r →
    ∀ key : String, key.take 10 = "stabiliser" →
      lookupVal r key = lookupVal own key := by
  intro sd
  induction sd with
  | nil =>
      intro own r h key
      injection h with h1
      rw [← h1]
      exact fun _ => rfl
  | cons p rest ih =>
      intro own r h key hkey
      obtain ⟨k, v⟩ := p
      simp only [loadLoop] at h
      by_cases hmem : (k.drop 19) ∈ own.map Prod.fst
      · rw [if_pos hmem] at h
        by_cases hstab : (k.drop 19).take 10 = "stabiliser"
        · rw [if_pos hstab] at h
          exact ih own r h key hkey
        · rw [if_neg hstab] at h
          have hne : key ≠ k.drop 19 := by
            intro he
            rw [he] at hkey
            exact hstab hkey
          rw [ih (updateKey own (k.drop 19) v) r h key hkey,
            lookupVal_updateKey_ne own (k.drop 19) key v hne]
      · rw [if_neg hmem] at h
        exact Except.noConfusion h

theorem loadLoop_ok_all : ∀ (sd own r : List (String × Rat)),
    loadLoop own sd = .ok r → ∀ p ∈ sd, p.1.drop 19 ∈ own.map Prod.fst := by
  intro sd
  induction sd with
  | nil => intro own r _ p hp; exact absurd hp (List.not_mem_nil p)
  | cons q rest ih =>
      intro own r h p hp
      obtain ⟨k, v⟩ := q
      simp only [loadLoop] at h
      by_cases hmem : (k.drop 19) ∈ own.map Prod.fst
      · rw [if_pos hmem] at h
        rcases List.mem_cons.mp hp with rfl | hp'
        · exact hmem
        · by_cases hstab : (k.drop 19).take 10 = "stabiliser"
          · rw [if_pos hstab] at h
            exact ih own r h p hp'
          · rw [if_neg hstab] at h
            have hrec := ih (updateKey own (k.drop 19) v) r h p hp'
            rwa [updateKey_keys] at hrec
      · rw [if_neg hmem] at h
        exact Except.noConfusion h

theorem load_state_dict_of_error (own sd : List (String × Rat)) (e : LoadErr)
    (hl : loadLoop own sd = .error e) : load_state_dict own sd = .error e := by
  simp only [load_state_dict]
  rw [hl]

theorem load_state_dict_of_ok (own sd own2 : List (String × Rat))
    (hl : loadLoop own sd = .ok own2) :
    load_state_dict own sd =
      (if ((own2.map Prod.fst).filter
            (fun k => decide (k ∉ sd.map (fun p => p.1.drop 19)))).isEmpty
       then .ok own2
       else .error (.missingKeys ((own2.map Prod.fst).filter
            (fun k => decide (k ∉ sd.map (fun p => p.1.drop 19)))))) := by
  simp only [load_state_dict]
  rw [hl]

/-- C9 counterexample: a checkpoint key under the `stabiliser` prefix
whose stripped name is absent from the live model is rejected with a
`KeyError` naming it, not silently skipped — the membership check comes
before the `stabiliser` skip in the copy loop. -/
theorem load_stabiliser_cex :
    load_state_dict [("a", 0)] [("module.inner_model.stabiliser.x", 1)]
        = .error (.unexpectedKey "stabiliser.x") ∧
    ("stabiliser.x").take 10 = "stabiliser" := by
  exact ⟨rfl, rfl⟩

/-- C9 amended: partial-weight loading fails with an error naming the
offending key for every checkpoint key (after prefix stripping) absent
from the live model — including keys under the `stabiliser` prefix,
which are exempt only from copying, not from the two checks — and fails
naming every live-model key absent from the stripped checkpoint keys;
when both checks pass, the load succeeds, keeps the live key set and
leaves `stabiliser`-prefixed parameters at their original values. -/
theorem load_state_dict_checks (own sd : List (String × Rat)) :
    ((∀ p ∈ sd, p.1.drop 19 ∈ own.map Prod.fst) →
     (∀ k ∈ own.map Prod.fst, k ∈ sd.map (fun p => p.1.drop 19)) →
     ∃ r, load_state_dict own sd = .ok r) ∧
    (∀ r, load_state_dict own sd = .ok r →
        r.map Prod.fst = own.map Prod.fst ∧
        (∀ p ∈ sd, p.1.drop 19 ∈ own.map Prod.fst) ∧
        (∀ k ∈ own.map Prod.fst, k ∈ sd.map (fun p => p.1.drop 19)) ∧
        ∀ key : String, key.take 10 = "stabiliser" →
          lookupVal r key = lookupVal own key) ∧
    (∀ n, load_state_dict own sd = .error (.unexpectedKey n) →
        n ∉ own.map Prod.fst ∧ n ∈ sd.map (fun p => p.1.drop 19)) ∧
    (∀ l, load_state_dict own sd = .error (.missingKeys l) →
        ∀ k, (k ∈ l ↔ k ∈ own.map Prod.fst ∧ k ∉ sd.map (fun p => p.1.drop 19))) := by
  refine ⟨?_, ?_, ?_, ?_⟩
  · intro h1 h2
    obtain ⟨r, hr⟩ := loadLoop_ok_of_all sd own h1
    refine ⟨r, ?_⟩
    rw [load_state_dict_of_ok own sd r hr]
    have hkeys := loadLoop_ok_keys sd own r hr
    have hmiss : (r.map Prod.fst).filter
        (fun k => decide (k ∉ sd.map (fun p => p.1.drop 19))) = [] := by
      rw [List.filter_eq_nil_iff]
      intro a ha
      rw [hkeys] at ha
      simp only [decide_eq_true_eq]
      exact fun hno => hno (h2 a ha)
    rw [hmiss]
    rfl
  · intro r hr
    cases hl : loadLoop own sd with
    | error e =>
        rw [load_state_dict_of_error own sd e hl] at hr
        exact Except.noConfusion hr
    | ok own2 =>
        rw [load_state_dict_of_ok own sd own2 hl] at hr
        by_cases hemp : ((own2.map Prod.fst).filter
            (fun k => decide (k ∉ sd.map (fun p => p.1.drop 19)))).isEmpty = true
        · rw [if_pos hemp] at hr
          injection hr with h2
          subst h2
          have hfe : (own2.map Prod.fst).filter
              (fun k => decide (k ∉ sd.map (fun p => p.1.drop 19))) = [] :=
            List.isEmpty_iff.mp hemp
          have hall2 : ∀ k ∈ own.map Prod.fst, k ∈ sd.map (fun p => p.1.drop 19) := by
            intro k hk
            have hk2 : k ∈ own2.map Prod.fst := by
              rw [loadLoop_ok_keys sd own own2 hl]
              exact hk
            have hnp := List.filter_eq_nil_iff.mp hfe k hk2
            rw [decide_eq_true_eq] at hnp
            exact not_not.mp hnp
          exact ⟨loadLoop_ok_keys sd own _ hl, loadLoop_ok_all sd own _ hl,
            hall2, loadLoop_stab sd own _ hl⟩
        · rw [if_neg hemp] at hr
          exact Except.noConfusion hr
  · intro n hn
    cases hl : loadLoop own sd with
    | error e =>
        rw [load_state_dict_of_error own sd e hl] at hn
        injection hn with he
        subst he
        obtain ⟨m, hm, h1, h2⟩ := loadLoop_error sd own _ hl
        injection hm with hm2
        subst hm2
        exact ⟨h1, h2⟩
    | ok own2 =>
        rw [load_state_dict_of_ok own sd own2 hl] at hn
        by_cases hemp : ((own2.map Prod.fst).filter
            (fun k => decide (k ∉ sd.map (fun p => p.1.drop 19)))).isEmpty = true
        · rw [if_pos hemp] at hn
          exact Except.noConfusion hn
        · rw [if_neg hemp] at hn
          injection hn with he
          exact LoadErr.noConfusion he
  · intro l hl4
    cases hl : loadLoop own sd with
    | error e =>
        rw [load_state_dict_of_error own sd e hl] at hl4
        injection hl4 with he
        obtain ⟨m, hm, -, -⟩ := loadLoop_error sd own e hl
        rw [he] at hm
        exact LoadErr.noConfusion hm
    | ok own2 =>
        rw [load_state_dict_of_ok own sd own2 hl] at hl4
        by_cases hemp : ((own2.map Prod.fst).filter
            (fun k => decide (k ∉ sd.map (fun p => p.1.drop 19)))).isEmpty = true
        · rw [if_pos hemp] at hl4
          exact Except.noConfusion hl4
        · rw [if_neg hemp] at hl4
          injection hl4 with he
          injection he with he2
          intro k
          rw [← he2]
          have hkeys := loadLoop_ok_keys sd own own2 hl
          constructor
          · intro hk
            rw [List.mem_filter] at hk
            obtain ⟨hk1, hk2⟩ := hk
            rw [hkeys] at hk1
            rw [decide_eq_true_eq] at hk2
            exact ⟨hk1, hk2⟩
          · rintro ⟨hk1, hk2⟩
            rw [List.mem_filter]
            refine ⟨by rw [hkeys]; exact hk1, ?_⟩
            rw [decide_eq_true_eq]
            exact hk2

theorem load_state_dict_checks_witness :
    ∃ r, load_state_dict [("w", 2), ("stabiliser.s", 3)]
        [("module.inner_model.w", 5), ("module.inner_model.stabiliser.s", 7)]
        = .ok r :=
  (load_state_dict_checks [("w", 2), ("stabiliser.s", 3)]
      [("module.inner_model.w", 5), ("module.inner_model.stabiliser.s", 7)]).1
    (by decide) (by decide)

end CortexNet
